import Mathlib

/-!
Shallow embedding of `src/remove_java_comments.py` (class `JavaCommentRemover`)
and verification of its specification.

The scanner state is the set of instance fields set in `__init__` (lines 16-24).
One iteration of the `while` loop of `remove_comments` (lines 41-167) is
embedded as the non-recursive `step` over the current character and the
remaining input, threading the state (the Python method mutates `self`) and
the `result` accumulator; `scanF` iterates it with fuel (sufficient fuel is
the input length, since every iteration advances), `scan` runs it to
completion, and `remove_comments`/`transform` join the result.  Crucially,
the Python `result` is a list of *strings* (`result.append(char)` pushes a
one-character string, but line 121 pushes `'"""'` and line 61 pushes `'""'` as
single elements), and the URL heuristic at line 134 slices that element list;
so `result` is embedded as `List (List Char)`, joined only at the end
(line 169).  A second, index-based model `stepIx`/`scanIx` with
bounds-checked accesses mirrors the source's subscripts and is proved to
agree with `scan`.
-/

namespace JavaCommentRemover

/-- The instance fields of `JavaCommentRemover` (source lines 16-24). -/
structure ScanState where
  in_string : Bool
  in_char : Bool
  in_single_line_comment : Bool
  in_multi_line_comment : Bool
  string_delimiter : Option Char
  in_text_block : Bool
  text_block_quotes : Nat
deriving DecidableEq

/-- The field values assigned by `__init__` (lines 16-24). -/
def initState : ScanState :=
  { in_string := false
    in_char := false
    in_single_line_comment := false
    in_multi_line_comment := false
    string_delimiter := none
    in_text_block := false
    text_block_quotes := 0 }

/-- One element of the Python `result` list: a string pushed by one
`append`/`extend` call.  Almost always a single character. -/
abbrev Piece := List Char

/-- Python `str.isspace()` on a single character: true on the Unicode
whitespace characters (ASCII whitespace, the C1 controls Python counts,
and the Unicode space separators). -/
def pyIsSpace (c : Char) : Bool :=
  c = ' ' || c = '\t' || c = '\n' || c = '\x0b' || c = '\x0c' || c = '\r' ||
  c = '\x1c' || c = '\x1d' || c = '\x1e' || c = '\x1f' ||
  c = '\x85' || c = '\xa0' || c = '\u1680' ||
  ('\u2000' ≤ c && c ≤ '\u200a') ||
  c = '\u2028' || c = '\u2029' || c = '\u202f' || c = '\u205f' || c = '\u3000'

/-- Python substring test `sub in s` on character lists. -/
def listContains (sub : List Char) : List Char → Bool
  | [] => sub.isEmpty
  | c :: cs => sub.isPrefixOf (c :: cs) || listContains sub cs

/-- `url_indicators` (line 135). -/
def url_indicators : List (List Char) :=
  [String.data "http:", String.data "https:", String.data "ftp:", String.data "file:"]

/-- `preceding_context` (line 134): join the last 10 *elements* of `result`
and lowercase.  The Python `len(result) >= 10` conditional is kept even
though both branches agree (`result[-10:]` clamps); `str.lower` is modelled
characterwise by `Char.toLower` (all indicators are ASCII). -/
def preceding_context (result : List Piece) : List Char :=
  if result.length ≥ 10 then
    ((result.drop (result.length - 10)).flatten).map Char.toLower
  else
    (result.flatten).map Char.toLower

/-- `is_likely_url` (lines 135-137): some URL indicator occurs in the
preceding context. -/
def is_likely_url (result : List Piece) : Bool :=
  url_indicators.any (fun ind => listContains ind (preceding_context result))

/-- The URL window as the specification words it (for comparison with
`preceding_context`): the last 10 *characters* of the output emitted so far,
lowercased.  This follows the spec text, not the source. -/
def claimed_url_context (out : List Char) : List Char :=
  (out.drop (out.length - 10)).map Char.toLower

/-- The URL test as the specification words it: some indicator occurs in the
last 10 output characters.  This follows the spec text, not the source. -/
def claimed_is_likely_url (out : List Char) : Bool :=
  url_indicators.any (fun ind => listContains ind (claimed_url_context out))

/-- The inner guard of the text-block start check (line 119):
`i + 3 < length and (java_content[i + 3].isspace() or java_content[i + 3] == '\n')`,
expressed on the input remaining after the three quotes. -/
def textBlockStartOk : List Char → Bool
  | [] => false
  | f :: _ => pyIsSpace f || f = '\n'

/-- The outcome of one iteration of the `while` loop: the `result` list after
the iteration, the instance state after it, and the input remaining after the
index advance. -/
structure StepOut where
  result : List Piece
  state : ScanState
  rest : List Char
deriving DecidableEq

/-- One iteration of the `while` loop of `remove_comments` (lines 41-167), on
current character `c` and remaining input `cs`.  Branches appear in the
source's order; index advances become dropped characters of `c :: cs`. -/
def step (st : ScanState) (result : List Piece) (c : Char) (cs : List Char) :
    StepOut :=
  -- lines 45-54: escape sequences in strings, chars, and text blocks
  if (st.in_string ∨ st.in_char ∨ st.in_text_block) ∧ c = '\\' then
    match cs with
    | d :: ds => ⟨result ++ [[c], [d]], st, ds⟩
    | [] => ⟨result ++ [[c]], st, []⟩
  -- lines 57-66: inside a text block (the char is appended first, line 58)
  else if st.in_text_block then
    match cs with
    | d :: e :: ds =>
      if c = '"' ∧ d = '"' ∧ e = '"' then
        -- lines 59-64: closing `"""`; `result.extend(['""'])` is one element
        ⟨result ++ [[c], ['"', '"']], { st with in_text_block := false }, ds⟩
      else
        ⟨result ++ [[c]], st, cs⟩
    | _ => ⟨result ++ [[c]], st, cs⟩
  -- lines 69-74: end of string literal
  else if st.in_string ∧ st.string_delimiter = some c then
    ⟨result ++ [[c]], { st with in_string := false, string_delimiter := none }, cs⟩
  -- lines 77-81: end of character literal
  else if st.in_char ∧ c = '\'' then
    ⟨result ++ [[c]], { st with in_char := false }, cs⟩
  -- lines 84-87: inside a string or char literal, copy
  else if st.in_string ∨ st.in_char then
    ⟨result ++ [[c]], st, cs⟩
  -- lines 90-94: end of single-line comment, newline kept
  else if st.in_single_line_comment ∧ c = '\n' then
    ⟨result ++ [[c]], { st with in_single_line_comment := false }, cs⟩
  -- lines 97-108: inside a multi-line comment
  else if st.in_multi_line_comment then
    match cs with
    | d :: ds =>
      if c = '*' ∧ d = '/' then
        ⟨result, { st with in_multi_line_comment := false }, ds⟩
      else
        ⟨if c = '\n' then result ++ [[c]] else result, st, cs⟩
    | [] => ⟨if c = '\n' then result ++ [[c]] else result, st, cs⟩
  -- lines 111-113: inside a single-line comment, skip
  else if st.in_single_line_comment then
    ⟨result, st, cs⟩
  else
    -- code mode: all mode flags are false here
    match c, cs with
    | '"', '"' :: '"' :: rest =>
      -- lines 115-123: text-block start check `java_content[i:i+3] == '"""'`
      if textBlockStartOk rest then
        ⟨result ++ [['"', '"', '"']], { st with in_text_block := true }, rest⟩
      else
        -- inner guard (line 119) failed: fall through; `'"'` skips the `'/'`
        -- branch and lands at lines 151-156, opening a string literal
        ⟨result ++ [[c]],
          { st with in_string := true, string_delimiter := some '"' }, cs⟩
    | _, _ =>
      -- lines 126-148: comment starts
      if c = '/' then
        match cs with
        | d :: ds =>
          if d = '/' then
            if is_likely_url result then
              -- no `continue`: fall through to line 166 and copy the `/`
              ⟨result ++ [[c]], st, cs⟩
            else
              ⟨result, { st with in_single_line_comment := true }, ds⟩
          else if d = '*' then
            ⟨result, { st with in_multi_line_comment := true }, ds⟩
          else
            -- line 166: `/` is neither `"` nor `'`, regular copy
            ⟨result ++ [[c]], st, cs⟩
        | [] => ⟨result ++ [[c]], st, cs⟩
      -- lines 151-156: start of string literal
      else if c = '"' then
        ⟨result ++ [[c]],
          { st with in_string := true, string_delimiter := some '"' }, cs⟩
      -- lines 159-163: start of character literal
      else if c = '\'' then
        ⟨result ++ [[c]], { st with in_char := true }, cs⟩
      -- lines 166-167: regular character
      else
        ⟨result ++ [[c]], st, cs⟩

/-- The `while` loop of `remove_comments` (lines 41-167): iterate `step`.
The first argument is iteration fuel: every iteration of the Python loop
advances `i` by at least 1, so fuel equal to the input length (supplied by
`scan` below, and shown sufficient by `scanF_succ`/`scanF_ge`) makes the
fuel-exhausted equation unreachable. -/
def scanF : Nat → ScanState → List Piece → List Char → List Piece × ScanState
  | _, st, result, [] => (result, st)
  | 0, st, result, _ :: _ => (result, st)
  | n + 1, st, result, c :: cs =>
    scanF n (step st result c cs).state (step st result c cs).result
      (step st result c cs).rest

/-- The loop run to completion: fuel is the input length. -/
def scan (st : ScanState) (result : List Piece) (x : List Char) :
    List Piece × ScanState :=
  scanF x.length st result x

/-- `remove_comments` (lines 26-169): run the loop from the instance's
current state on the whole content, return `''.join(result)` and the
instance state the call leaves behind (the Python method mutates `self`). -/
def remove_comments (st : ScanState) (java_content : List Char) :
    List Char × ScanState :=
  ((scan st [] java_content).1.flatten, (scan st [] java_content).2)

/-- The transform on a fresh instance: `remove_comments` from the
`__init__` state. -/
def transform (java_content : List Char) : List Char :=
  (remove_comments initState java_content).1

/-- The state reset performed by `process_file` (lines 188-195) before it
calls `remove_comments`. -/
def reset_state (st : ScanState) : ScanState :=
  { st with
    in_string := false
    in_char := false
    in_single_line_comment := false
    in_multi_line_comment := false
    string_delimiter := none
    in_text_block := false
    text_block_quotes := 0 }

/-- The in-memory part of `process_file` (lines 183-198): reset the instance
state (lines 188-195), then `remove_comments` (line 198).  File I/O omitted. -/
def process_file_scan (st : ScanState) (content : List Char) :
    List Char × ScanState :=
  remove_comments (reset_state st) content


/-- One iteration of the loop in the Python program's own index-based terms.
Every character subscript `java_content[j]` is a bounds-checked `x[j]?` access
whose out-of-range failure propagates as `none` (where Python would raise);
guards written `j < x.length` mirror the source's explicit bound checks
(lines 46, 59, 98, 116, 119, 127); slices are `drop`/`take`, total as in
Python.  Returns the updated result list, state, and index.  The text-block
start check combines the outer test (line 116) and the inner test (line 119)
into one condition; when either fails, control falls through to the comment
checks, as in the source. -/
def stepIx (x : List Char) (i : Nat) (st : ScanState) (result : List Piece) :
    Option (List Piece × ScanState × Nat) :=
  match x[i]? with
  | none => none
  | some c =>
    -- lines 45-54
    if (st.in_string ∨ st.in_char ∨ st.in_text_block) ∧ c = '\\' then
      if i + 1 < x.length then
        match x[i + 1]? with
        | none => none
        | some d => some (result ++ [[c], [d]], st, i + 2)
      else
        some (result ++ [[c]], st, i + 1)
    -- lines 57-66
    else if st.in_text_block then
      if c = '"' ∧ i + 2 < x.length ∧ (x.drop (i + 1)).take 2 = ['"', '"'] then
        some (result ++ [[c], ['"', '"']],
          { st with in_text_block := false }, i + 3)
      else
        some (result ++ [[c]], st, i + 1)
    -- lines 69-74
    else if st.in_string ∧ st.string_delimiter = some c then
      some (result ++ [[c]],
        { st with in_string := false, string_delimiter := none }, i + 1)
    -- lines 77-81
    else if st.in_char ∧ c = '\'' then
      some (result ++ [[c]], { st with in_char := false }, i + 1)
    -- lines 84-87
    else if st.in_string ∨ st.in_char then
      some (result ++ [[c]], st, i + 1)
    -- lines 90-94
    else if st.in_single_line_comment ∧ c = '\n' then
      some (result ++ [[c]], { st with in_single_line_comment := false }, i + 1)
    -- lines 97-108
    else if st.in_multi_line_comment then
      if c = '*' ∧ i + 1 < x.length ∧ x[i + 1]? = some '/' then
        some (result, { st with in_multi_line_comment := false }, i + 2)
      else
        some (if c = '\n' then result ++ [[c]] else result, st, i + 1)
    -- lines 111-113
    else if st.in_single_line_comment then
      some (result, st, i + 1)
    -- lines 115-123
    else if c = '"' ∧ i + 2 < x.length ∧
        (x.drop i).take 3 = ['"', '"', '"'] ∧ i + 3 < x.length ∧
        (x[i + 3]?.any fun f => pyIsSpace f || f = '\n') = true then
      some (result ++ [['"', '"', '"']],
        { st with in_text_block := true }, i + 3)
    -- lines 126-148
    else if c = '/' then
      if i + 1 < x.length then
        match x[i + 1]? with
        | none => none
        | some next_char =>
          if next_char = '/' then
            if is_likely_url result then
              some (result ++ [[c]], st, i + 1)
            else
              some (result, { st with in_single_line_comment := true }, i + 2)
          else if next_char = '*' then
            some (result, { st with in_multi_line_comment := true }, i + 2)
          else
            some (result ++ [[c]], st, i + 1)
      else
        some (result ++ [[c]], st, i + 1)
    -- lines 151-156
    else if c = '"' then
      some (result ++ [[c]],
        { st with in_string := true, string_delimiter := some '"' }, i + 1)
    -- lines 159-163
    else if c = '\'' then
      some (result ++ [[c]], { st with in_char := true }, i + 1)
    -- lines 166-167
    else
      some (result ++ [[c]], st, i + 1)

/-- The `while i < length` loop (lines 38-41, 169) in index terms: iterate
`stepIx` while the index is in range; fuel bounds the iteration count, and
`none` marks a failed access or exhausted fuel. -/
def scanIx (x : List Char) : Nat → Nat → ScanState → List Piece →
    Option (List Piece × ScanState)
  | 0, i, st, result => if i < x.length then none else some (result, st)
  | fuel + 1, i, st, result =>
    if i < x.length then
      match stepIx x i st result with
      | none => none
      | some (result', st', i') => scanIx x fuel i' st' result'
    else
      some (result, st)

/-- A state with every mode flag false: the scanner is in plain code. -/
def CodeMode (st : ScanState) : Prop :=
  st.in_string = false ∧ st.in_char = false ∧ st.in_single_line_comment = false ∧
  st.in_multi_line_comment = false ∧ st.in_text_block = false

theorem step_escape_two (st : ScanState) (result : List Piece) (d : Char)
    (ds : List Char)
    (h : st.in_string = true ∨ st.in_char = true ∨ st.in_text_block = true) :
    step st result '\\' (d :: ds) = ⟨result ++ [['\\'], [d]], st, ds⟩ := by
  unfold step; rw [if_pos ⟨h, rfl⟩]

theorem step_escape_end (st : ScanState) (result : List Piece)
    (h : st.in_string = true ∨ st.in_char = true ∨ st.in_text_block = true) :
    step st result '\\' [] = ⟨result ++ [['\\']], st, []⟩ := by
  unfold step; rw [if_pos ⟨h, rfl⟩]

theorem step_tb_close (st : ScanState) (result : List Piece) (ds : List Char)
    (h : st.in_text_block = true) :
    step st result '"' ('"' :: '"' :: ds) =
      ⟨result ++ [['"'], ['"', '"']], { st with in_text_block := false }, ds⟩ := by
  unfold step
  rw [if_neg (by simp), if_pos h]
  dsimp only
  rw [if_pos ⟨rfl, rfl, rfl⟩]

theorem step_tb_copy (st : ScanState) (result : List Piece) (c : Char)
    (cs : List Char) (h : st.in_text_block = true) (hc : c ≠ '\\')
    (hsh : ¬(c = '"' ∧ cs.take 2 = ['"', '"'])) :
    step st result c cs = ⟨result ++ [[c]], st, cs⟩ := by
  unfold step
  rw [if_neg (by simp [hc]), if_pos h]
  rcases cs with _ | ⟨d, _ | ⟨e, ds⟩⟩
  · rfl
  · rfl
  · dsimp only
    rw [if_neg (by simpa using hsh)]

theorem step_string_close (st : ScanState) (result : List Piece) (c : Char)
    (cs : List Char) (h1 : st.in_string = true) (h2 : st.in_text_block = false)
    (h3 : c ≠ '\\') (h4 : st.string_delimiter = some c) :
    step st result c cs =
      ⟨result ++ [[c]],
        { st with in_string := false, string_delimiter := none }, cs⟩ := by
  unfold step
  rw [if_neg (by simp [h3]), if_neg (by simp [h2]), if_pos ⟨h1, h4⟩]

theorem step_char_close (st : ScanState) (result : List Piece) (cs : List Char)
    (h1 : st.in_char = true) (h2 : st.in_text_block = false)
    (h3 : ¬(st.in_string = true ∧ st.string_delimiter = some '\'')) :
    step st result '\'' cs =
      ⟨result ++ [['\'']], { st with in_char := false }, cs⟩ := by
  unfold step
  rw [if_neg (by simp), if_neg (by simp [h2]), if_neg h3, if_pos ⟨h1, rfl⟩]

theorem step_lit_copy (st : ScanState) (result : List Piece) (c : Char)
    (cs : List Char) (h1 : st.in_string = true ∨ st.in_char = true)
    (h2 : st.in_text_block = false) (h3 : c ≠ '\\')
    (h4 : ¬(st.in_string = true ∧ st.string_delimiter = some c))
    (h5 : ¬(st.in_char = true ∧ c = '\'')) :
    step st result c cs = ⟨result ++ [[c]], st, cs⟩ := by
  unfold step
  rw [if_neg (by simp [h3]), if_neg (by simp [h2]), if_neg h4,
    if_neg h5, if_pos h1]

theorem step_slc_end (st : ScanState) (result : List Piece) (cs : List Char)
    (h1 : st.in_single_line_comment = true) (h2 : st.in_string = false)
    (h3 : st.in_char = false) (h4 : st.in_text_block = false) :
    step st result '\n' cs =
      ⟨result ++ [['\n']], { st with in_single_line_comment := false }, cs⟩ := by
  unfold step
  rw [if_neg (by simp), if_neg (by simp [h4]), if_neg (by simp [h2]),
    if_neg (by simp [h3]), if_neg (by simp [h2, h3]), if_pos ⟨h1, rfl⟩]

theorem step_mlc_close (st : ScanState) (result : List Piece) (ds : List Char)
    (h1 : st.in_multi_line_comment = true) (h2 : st.in_string = false)
    (h3 : st.in_char = false) (h4 : st.in_text_block = false) :
    step st result '*' ('/' :: ds) =
      ⟨result, { st with in_multi_line_comment := false }, ds⟩ := by
  unfold step
  rw [if_neg (by simp), if_neg (by simp [h4]), if_neg (by simp [h2]),
    if_neg (by simp [h3]), if_neg (by simp [h2, h3]), if_neg (by simp),
    if_pos h1]
  dsimp only
  rw [if_pos ⟨rfl, rfl⟩]

theorem step_mlc_skip (st : ScanState) (result : List Piece) (c : Char)
    (cs : List Char)
    (h1 : st.in_multi_line_comment = true) (h2 : st.in_string = false)
    (h3 : st.in_char = false) (h4 : st.in_text_block = false)
    (h5 : ¬(st.in_single_line_comment = true ∧ c = '\n'))
    (h6 : ¬(c = '*' ∧ cs.take 1 = ['/'])) :
    step st result c cs =
      ⟨if c = '\n' then result ++ [[c]] else result, st, cs⟩ := by
  unfold step
  rw [if_neg (by simp [h2, h3, h4]), if_neg (by simp [h4]),
    if_neg (by simp [h2]), if_neg (by simp [h3]), if_neg (by simp [h2, h3]),
    if_neg h5, if_pos h1]
  rcases cs with _ | ⟨d, ds⟩
  · rfl
  · dsimp only
    rw [if_neg (by simpa using h6)]

theorem step_slc_skip (st : ScanState) (result : List Piece) (c : Char)
    (cs : List Char)
    (h1 : st.in_single_line_comment = true) (h2 : st.in_string = false)
    (h3 : st.in_char = false) (h4 : st.in_text_block = false)
    (h5 : st.in_multi_line_comment = false) (h6 : c ≠ '\n') :
    step st result c cs = ⟨result, st, cs⟩ := by
  unfold step
  rw [if_neg (by simp [h2, h3, h4]), if_neg (by simp [h4]),
    if_neg (by simp [h2]), if_neg (by simp [h3]), if_neg (by simp [h2, h3]),
    if_neg (by simp [h6]), if_neg (by simp [h5]), if_pos h1]

theorem step_tb_start (st : ScanState) (result : List Piece) (rest : List Char)
    (h : CodeMode st) (hok : textBlockStartOk rest = true) :
    step st result '"' ('"' :: '"' :: rest) =
      ⟨result ++ [['"', '"', '"']], { st with in_text_block := true }, rest⟩ := by
  obtain ⟨c1, c2, c3, c4, c5⟩ := h
  unfold step
  rw [if_neg (by simp [c1, c2, c5]), if_neg (by simp [c5]), if_neg (by simp [c1]),
    if_neg (by simp [c2]), if_neg (by simp [c1, c2]), if_neg (by simp [c3]),
    if_neg (by simp [c4]), if_neg (by simp [c3])]
  simp [hok]

theorem step_tb_reject (st : ScanState) (result : List Piece) (rest : List Char)
    (h : CodeMode st) (hok : textBlockStartOk rest = false) :
    step st result '"' ('"' :: '"' :: rest) =
      ⟨result ++ [['"']],
        { st with in_string := true, string_delimiter := some '"' },
        '"' :: '"' :: rest⟩ := by
  obtain ⟨c1, c2, c3, c4, c5⟩ := h
  unfold step
  rw [if_neg (by simp [c1, c2, c5]), if_neg (by simp [c5]), if_neg (by simp [c1]),
    if_neg (by simp [c2]), if_neg (by simp [c1, c2]), if_neg (by simp [c3]),
    if_neg (by simp [c4]), if_neg (by simp [c3])]
  simp [hok]

theorem step_slc_start (st : ScanState) (result : List Piece) (ds : List Char)
    (h : CodeMode st) (hurl : is_likely_url result = false) :
    step st result '/' ('/' :: ds) =
      ⟨result, { st with in_single_line_comment := true }, ds⟩ := by
  obtain ⟨c1, c2, c3, c4, c5⟩ := h
  unfold step
  rw [if_neg (by simp [c1, c2, c5]), if_neg (by simp [c5]), if_neg (by simp [c1]),
    if_neg (by simp [c2]), if_neg (by simp [c1, c2]), if_neg (by simp [c3]),
    if_neg (by simp [c4]), if_neg (by simp [c3])]
  simp [hurl]

theorem step_url_copy (st : ScanState) (result : List Piece) (ds : List Char)
    (h : CodeMode st) (hurl : is_likely_url result = true) :
    step st result '/' ('/' :: ds) = ⟨result ++ [['/']], st, '/' :: ds⟩ := by
  obtain ⟨c1, c2, c3, c4, c5⟩ := h
  unfold step
  rw [if_neg (by simp [c1, c2, c5]), if_neg (by simp [c5]), if_neg (by simp [c1]),
    if_neg (by simp [c2]), if_neg (by simp [c1, c2]), if_neg (by simp [c3]),
    if_neg (by simp [c4]), if_neg (by simp [c3])]
  simp [hurl]

theorem step_mlc_start (st : ScanState) (result : List Piece) (ds : List Char)
    (h : CodeMode st) :
    step st result '/' ('*' :: ds) =
      ⟨result, { st with in_multi_line_comment := true }, ds⟩ := by
  obtain ⟨c1, c2, c3, c4, c5⟩ := h
  unfold step
  rw [if_neg (by simp [c1, c2, c5]), if_neg (by simp [c5]), if_neg (by simp [c1]),
    if_neg (by simp [c2]), if_neg (by simp [c1, c2]), if_neg (by simp [c3]),
    if_neg (by simp [c4]), if_neg (by simp [c3])]
  simp

theorem step_slash_copy (st : ScanState) (result : List Piece) (cs : List Char)
    (h : CodeMode st) (h1 : ¬(cs.take 1 = ['/'])) (h2 : ¬(cs.take 1 = ['*'])) :
    step st result '/' cs = ⟨result ++ [['/']], st, cs⟩ := by
  obtain ⟨c1, c2, c3, c4, c5⟩ := h
  unfold step
  rw [if_neg (by simp [c1, c2, c5]), if_neg (by simp [c5]), if_neg (by simp [c1]),
    if_neg (by simp [c2]), if_neg (by simp [c1, c2]), if_neg (by simp [c3]),
    if_neg (by simp [c4]), if_neg (by simp [c3])]
  rcases cs with _ | ⟨d, ds⟩
  · rfl
  · simp only [List.take_succ_cons, List.take_zero] at h1 h2
    have hd1 : d ≠ '/' := by intro hh; exact h1 (by rw [hh])
    have hd2 : d ≠ '*' := by intro hh; exact h2 (by rw [hh])
    simp [hd1, hd2]

theorem step_string_open (st : ScanState) (result : List Piece) (cs : List Char)
    (h : CodeMode st) (hsh : ¬(cs.take 2 = ['"', '"'])) :
    step st result '"' cs =
      ⟨result ++ [['"']],
        { st with in_string := true, string_delimiter := some '"' }, cs⟩ := by
  obtain ⟨c1, c2, c3, c4, c5⟩ := h
  unfold step
  rw [if_neg (by simp [c1, c2, c5]), if_neg (by simp [c5]), if_neg (by simp [c1]),
    if_neg (by simp [c2]), if_neg (by simp [c1, c2]), if_neg (by simp [c3]),
    if_neg (by simp [c4]), if_neg (by simp [c3])]
  rcases cs with _ | ⟨d, _ | ⟨e, ds⟩⟩
  · simp
  · simp
  · by_cases hd : d = '"'
    · by_cases he : e = '"'
      · exact absurd (by rw [hd, he]; rfl) hsh
      · subst hd; simp [he]
    · simp [hd]

theorem step_char_open (st : ScanState) (result : List Piece) (cs : List Char)
    (h : CodeMode st) :
    step st result '\'' cs =
      ⟨result ++ [['\'']], { st with in_char := true }, cs⟩ := by
  obtain ⟨c1, c2, c3, c4, c5⟩ := h
  unfold step
  rw [if_neg (by simp [c1, c2, c5]), if_neg (by simp [c5]), if_neg (by simp [c1]),
    if_neg (by simp [c2]), if_neg (by simp [c1, c2]), if_neg (by simp [c3]),
    if_neg (by simp [c4]), if_neg (by simp [c3])]
  simp

theorem step_regular (st : ScanState) (result : List Piece) (c : Char)
    (cs : List Char) (h : CodeMode st)
    (hc1 : c ≠ '/') (hc2 : c ≠ '"') (hc3 : c ≠ '\'') :
    step st result c cs = ⟨result ++ [[c]], st, cs⟩ := by
  obtain ⟨c1, c2, c3, c4, c5⟩ := h
  unfold step
  rw [if_neg (by simp [c1, c2, c5]), if_neg (by simp [c5]), if_neg (by simp [c1]),
    if_neg (by simp [c2]), if_neg (by simp [c1, c2]), if_neg (by simp [c3]),
    if_neg (by simp [c4]), if_neg (by simp [c3])]
  split
  · exact absurd rfl hc2
  · simp [hc1, hc2, hc3]

theorem sublist_of_eq {l₁ l₂ : List Char} (h : l₁ = l₂) : l₁.Sublist l₂ :=
  h ▸ List.Sublist.refl _

theorem step_main (st : ScanState) (result : List Piece) (c : Char)
    (cs : List Char) :
    (step st result c cs).rest.length ≤ cs.length ∧
    ((step st result c cs).result.flatten ++ (step st result c cs).rest).Sublist
      (result.flatten ++ (c :: cs)) ∧
    (step st result c cs).result.flatten.count '\n' +
      (step st result c cs).rest.count '\n' =
      result.flatten.count '\n' + (c :: cs).count '\n' := by
  by_cases hEsc : (st.in_string = true ∨ st.in_char = true ∨ st.in_text_block = true) ∧ c = '\\'
  · obtain ⟨hf, hc⟩ := hEsc; subst hc
    rcases cs with _ | ⟨d, ds⟩
    · rw [step_escape_end st result hf]
      exact ⟨by simp, sublist_of_eq (by simp), by simp⟩
    · rw [step_escape_two st result d ds hf]
      refine ⟨by simp, sublist_of_eq (by simp [List.flatten_append]), ?_⟩
      simp [List.count_append, List.count_cons] ; omega
  · by_cases hTB : st.in_text_block = true
    · have hc : c ≠ '\\' := fun hh => hEsc ⟨Or.inr (Or.inr hTB), hh⟩
      by_cases hq : c = '"' ∧ cs.take 2 = ['"', '"']
      · obtain ⟨hc', htk⟩ := hq; subst hc'
        rcases cs with _ | ⟨d, _ | ⟨e, ds⟩⟩
        · simp at htk
        · simp at htk
        · simp only [List.take_succ_cons, List.take_zero] at htk
          obtain ⟨hd, he⟩ : d = '"' ∧ e = '"' := by simpa using htk
          subst hd; subst he
          rw [step_tb_close st result ds hTB]
          refine ⟨by simp ; omega, sublist_of_eq (by simp [List.flatten_append]), ?_⟩
          simp [List.count_append, List.count_cons]
      · rw [step_tb_copy st result c cs hTB hc hq]
        refine ⟨by simp, sublist_of_eq (by simp [List.flatten_append]), ?_⟩
        simp [List.count_append, List.count_cons] ; omega
    · by_cases hStrC : st.in_string = true ∧ st.string_delimiter = some c
      · have hc : c ≠ '\\' := fun hh => hEsc ⟨Or.inl hStrC.1, hh⟩
        rw [step_string_close st result c cs hStrC.1 (by simpa using hTB) hc hStrC.2]
        refine ⟨by simp, sublist_of_eq (by simp [List.flatten_append]), ?_⟩
        simp [List.count_append, List.count_cons] ; omega
      · by_cases hChC : st.in_char = true ∧ c = '\''
        · obtain ⟨h1, hc'⟩ := hChC; subst hc'
          rw [step_char_close st result cs h1 (by simpa using hTB) hStrC]
          refine ⟨by simp, sublist_of_eq (by simp [List.flatten_append]), ?_⟩
          simp [List.count_append, List.count_cons]
        · by_cases hLit : st.in_string = true ∨ st.in_char = true
          · have hc : c ≠ '\\' := fun hh => hEsc ⟨hLit.imp id Or.inl, hh⟩
            rw [step_lit_copy st result c cs hLit (by simpa using hTB) hc hStrC hChC]
            refine ⟨by simp, sublist_of_eq (by simp [List.flatten_append]), ?_⟩
            simp [List.count_append, List.count_cons] ; omega
          · have hs : st.in_string = false := by
              simpa using fun hh => hLit (Or.inl hh)
            have hch : st.in_char = false := by
              simpa using fun hh => hLit (Or.inr hh)
            have htb : st.in_text_block = false := by simpa using hTB
            by_cases hSLCe : st.in_single_line_comment = true ∧ c = '\n'
            · obtain ⟨h1, hc'⟩ := hSLCe; subst hc'
              rw [step_slc_end st result cs h1 hs hch htb]
              refine ⟨by simp, sublist_of_eq (by simp [List.flatten_append]), ?_⟩
              simp [List.count_append, List.count_cons] ; omega
            · by_cases hMLC : st.in_multi_line_comment = true
              · by_cases hstar : c = '*' ∧ cs.take 1 = ['/']
                · obtain ⟨hc', htk⟩ := hstar; subst hc'
                  rcases cs with _ | ⟨d, ds⟩
                  · simp at htk
                  · simp only [List.take_succ_cons, List.take_zero] at htk
                    have hd : d = '/' := by simpa using htk
                    subst hd
                    rw [step_mlc_close st result ds hMLC hs hch htb]
                    refine ⟨by simp, ?_, ?_⟩
                    · exact List.Sublist.append_left
                        ((List.sublist_cons_self _ _).trans
                          (List.sublist_cons_self _ _)) _
                    · simp [List.count_cons]
                · rw [step_mlc_skip st result c cs hMLC hs hch htb hSLCe hstar]
                  by_cases hn : c = '\n'
                  · subst hn
                    refine ⟨by simp, sublist_of_eq (by simp [List.flatten_append]), ?_⟩
                    simp [List.count_append, List.count_cons] ; omega
                  · rw [if_neg hn]
                    refine ⟨by simp, ?_, ?_⟩
                    · exact List.Sublist.append_left (List.sublist_cons_self _ _) _
                    · simp [List.count_cons, hn]
              · by_cases hSLC : st.in_single_line_comment = true
                · have hn : c ≠ '\n' := fun hh => hSLCe ⟨hSLC, hh⟩
                  rw [step_slc_skip st result c cs hSLC hs hch htb
                    (by simpa using hMLC) hn]
                  refine ⟨by simp, ?_, ?_⟩
                  · exact List.Sublist.append_left (List.sublist_cons_self _ _) _
                  · simp [List.count_cons, hn]
                · have hCM : CodeMode st :=
                    ⟨hs, hch, by simpa using hSLC, by simpa using hMLC, htb⟩
                  by_cases hq : c = '"' ∧ cs.take 2 = ['"', '"']
                  · obtain ⟨hc', htk⟩ := hq; subst hc'
                    rcases cs with _ | ⟨d, _ | ⟨e, ds⟩⟩
                    · simp at htk
                    · simp at htk
                    · simp only [List.take_succ_cons, List.take_zero] at htk
                      obtain ⟨hd, he⟩ : d = '"' ∧ e = '"' := by simpa using htk
                      subst hd; subst he
                      cases hok : textBlockStartOk ds
                      · rw [step_tb_reject st result ds hCM hok]
                        refine ⟨by simp, sublist_of_eq (by simp [List.flatten_append]), ?_⟩
                        simp [List.count_append, List.count_cons]
                      · rw [step_tb_start st result ds hCM hok]
                        refine ⟨by simp ; omega, sublist_of_eq (by simp [List.flatten_append]), ?_⟩
                        simp [List.count_append, List.count_cons]
                  · by_cases hsl : c = '/'
                    · subst hsl
                      rcases cs with _ | ⟨d, ds⟩
                      · rw [step_slash_copy st result [] hCM (by simp) (by simp)]
                        refine ⟨by simp, sublist_of_eq (by simp [List.flatten_append]), ?_⟩
                        simp [List.count_append, List.count_cons]
                      · by_cases hd : d = '/'
                        · subst hd
                          cases hurl : is_likely_url result
                          · rw [step_slc_start st result ds hCM hurl]
                            refine ⟨by simp, ?_, ?_⟩
                            · exact List.Sublist.append_left
                                ((List.sublist_cons_self _ _).trans
                                  (List.sublist_cons_self _ _)) _
                            · simp [List.count_cons]
                          · rw [step_url_copy st result ds hCM hurl]
                            refine ⟨by simp, sublist_of_eq (by simp [List.flatten_append]), ?_⟩
                            simp [List.count_append, List.count_cons]
                        · by_cases hd2 : d = '*'
                          · subst hd2
                            rw [step_mlc_start st result ds hCM]
                            refine ⟨by simp, ?_, ?_⟩
                            · exact List.Sublist.append_left
                                ((List.sublist_cons_self _ _).trans
                                  (List.sublist_cons_self _ _)) _
                            · simp [List.count_cons]
                          · rw [step_slash_copy st result (d :: ds) hCM
                              (by simp [hd]) (by simp [hd2])]
                            refine ⟨by simp, sublist_of_eq (by simp [List.flatten_append]), ?_⟩
                            simp [List.count_append, List.count_cons]
                    · by_cases hq2 : c = '"'
                      · subst hq2
                        have hsh : ¬(cs.take 2 = ['"', '"']) := fun hh => hq ⟨rfl, hh⟩
                        rw [step_string_open st result cs hCM hsh]
                        refine ⟨by simp, sublist_of_eq (by simp [List.flatten_append]), ?_⟩
                        simp [List.count_append, List.count_cons]
                      · by_cases hq3 : c = '\''
                        · subst hq3
                          rw [step_char_open st result cs hCM]
                          refine ⟨by simp, sublist_of_eq (by simp [List.flatten_append]), ?_⟩
                          simp [List.count_append, List.count_cons]
                        · rw [step_regular st result c cs hCM hsl hq2 hq3]
                          refine ⟨by simp, sublist_of_eq (by simp [List.flatten_append]), ?_⟩
                          simp [List.count_append, List.count_cons] ; omega

theorem step_rest_length (st : ScanState) (result : List Piece) (c : Char)
    (cs : List Char) : (step st result c cs).rest.length ≤ cs.length :=
  (step_main st result c cs).1

theorem scanF_succ : ∀ (n : Nat) (st : ScanState) (result : List Piece)
    (x : List Char), x.length ≤ n →
    scanF (n + 1) st result x = scanF n st result x := by
  intro n
  induction n with
  | zero =>
    intro st result x hx
    have : x = [] := List.eq_nil_of_length_eq_zero (Nat.le_zero.mp hx)
    subst this
    rfl
  | succ n ih =>
    intro st result x hx
    cases x with
    | nil => rfl
    | cons c cs =>
      show scanF (n + 1) _ _ _ = scanF n _ _ _
      exact ih _ _ _ (le_trans (step_rest_length st result c cs)
        (Nat.le_of_succ_le_succ hx))

theorem scanF_ge : ∀ (n : Nat) (st : ScanState) (result : List Piece)
    (x : List Char), x.length ≤ n → scanF n st result x = scan st result x := by
  intro n st result x hx
  induction n with
  | zero =>
    have : x = [] := List.eq_nil_of_length_eq_zero (Nat.le_zero.mp hx)
    subst this; rfl
  | succ n ih =>
    rcases Nat.lt_or_ge x.length (n + 1) with h | h
    · rw [scanF_succ n st result x (Nat.lt_succ_iff.mp h)]
      exact ih (Nat.lt_succ_iff.mp h)
    · have : x.length = n + 1 := le_antisymm hx h
      rw [← this]; rfl

theorem scan_nil (st : ScanState) (result : List Piece) :
    scan st result [] = (result, st) := rfl

/-- Unfolding one loop iteration: scanning `c :: cs` performs `step` and
scans what it leaves. -/
theorem scan_cons (st : ScanState) (result : List Piece) (c : Char)
    (cs : List Char) :
    scan st result (c :: cs) =
      scan (step st result c cs).state (step st result c cs).result
        (step st result c cs).rest := by
  show scanF (cs.length + 1) st result (c :: cs) = _
  rw [show scanF (cs.length + 1) st result (c :: cs)
      = scanF cs.length (step st result c cs).state (step st result c cs).result
        (step st result c cs).rest from rfl]
  exact scanF_ge cs.length _ _ _ (step_rest_length st result c cs)

/-- Newline bookkeeping across the whole loop: the result accumulates exactly
the newlines of what it consumed. -/
theorem scan_count_newline : ∀ (n : Nat) (x : List Char), x.length ≤ n →
    ∀ (st : ScanState) (result : List Piece),
    ((scan st result x).1.flatten).count '\n' =
      (result.flatten).count '\n' + x.count '\n' := by
  intro n
  induction n with
  | zero =>
    intro x hx st result
    have : x = [] := List.eq_nil_of_length_eq_zero (Nat.le_zero.mp hx)
    subst this; simp [scan_nil]
  | succ n ih =>
    intro x hx st result
    cases x with
    | nil => simp [scan_nil]
    | cons c cs =>
      rw [scan_cons]
      rw [ih _ (le_trans (step_rest_length st result c cs)
        (Nat.le_of_succ_le_succ hx))]
      have h := (step_main st result c cs).2.2
      simp only [List.count_append, List.count_cons] at h ⊢
      omega

/-- The emitted output is a subsequence of what was already emitted plus the
remaining input: the scanner only copies or drops, never invents characters. -/
theorem scan_sublist : ∀ (n : Nat) (x : List Char), x.length ≤ n →
    ∀ (st : ScanState) (result : List Piece),
    ((scan st result x).1.flatten).Sublist (result.flatten ++ x) := by
  intro n
  induction n with
  | zero =>
    intro x hx st result
    have : x = [] := List.eq_nil_of_length_eq_zero (Nat.le_zero.mp hx)
    subst this; simp [scan_nil]
  | succ n ih =>
    intro x hx st result
    cases x with
    | nil => simp [scan_nil]
    | cons c cs =>
      rw [scan_cons]
      exact (ih _ (le_trans (step_rest_length st result c cs)
          (Nat.le_of_succ_le_succ hx)) _ _).trans
        ((step_main st result c cs).2.1)


/-- One index-based iteration agrees with one `step`: when the index is in
range, `stepIx` succeeds (no access fails) and returns exactly the `step`
result and state, advancing to an index whose suffix is `step`'s remaining
input. -/
theorem stepIx_eq (x : List Char) (i : Nat) (st : ScanState)
    (result : List Piece) (c : Char) (cs : List Char)
    (hx : x.drop i = c :: cs) :
    ∃ i', i < i' ∧
      stepIx x i st result =
        some ((step st result c cs).result, (step st result c cs).state, i') ∧
      x.drop i' = (step st result c cs).rest := by
  have hlen : x.length - i = cs.length + 1 := by
    have hl := congrArg List.length hx
    simpa [List.length_drop] using hl
  have hxlen : x.length = i + cs.length + 1 := by omega
  have hxi : x[i]? = some c := by
    have h0 := List.getElem?_drop x i 0
    rw [hx] at h0
    simpa using h0.symm
  have hdrop1 : x.drop (i + 1) = cs := by
    have hd := List.drop_drop 1 i x
    rw [hx] at hd
    simpa using hd.symm
  have hdrop2 : x.drop (i + 2) = cs.drop 1 := by
    have hd := List.drop_drop 2 i x
    rw [hx] at hd
    simpa [Nat.add_comm] using hd.symm
  have hdrop3 : x.drop (i + 3) = cs.drop 2 := by
    have hd := List.drop_drop 3 i x
    rw [hx] at hd
    simpa [Nat.add_comm] using hd.symm
  have hget1 : x[i + 1]? = cs[0]? := by
    have hg := List.getElem?_drop x (i + 1) 0
    rw [hdrop1] at hg
    simpa using hg.symm
  have hget3 : x[i + 3]? = cs[2]? := by
    have hg := List.getElem?_drop x (i + 1) 2
    rw [hdrop1] at hg
    have : i + 1 + 2 = i + 3 := by omega
    rw [this] at hg
    exact hg.symm
  by_cases hEsc : (st.in_string = true ∨ st.in_char = true ∨ st.in_text_block = true) ∧ c = '\\'
  · obtain ⟨hf, hc⟩ := hEsc; subst hc
    rcases cs with _ | ⟨d, ds⟩
    · refine ⟨i + 1, by omega, ?_, ?_⟩
      · unfold stepIx
        rw [hxi]
        dsimp only
        rw [if_pos ⟨hf, rfl⟩,
          if_neg (by simp at hxlen; omega : ¬ i + 1 < x.length),
          step_escape_end st result hf]
      · rw [step_escape_end st result hf, hdrop1]
    · refine ⟨i + 2, by omega, ?_, ?_⟩
      · unfold stepIx
        rw [hxi]
        dsimp only
        rw [if_pos ⟨hf, rfl⟩, if_pos (by simp at hxlen; omega : i + 1 < x.length),
          hget1]
        simp only [List.getElem?_cons_zero]
        rw [step_escape_two st result d ds hf]
      · rw [step_escape_two st result d ds hf, hdrop2]; rfl
  · by_cases hTB : st.in_text_block = true
    · have hc : c ≠ '\\' := fun hh => hEsc ⟨Or.inr (Or.inr hTB), hh⟩
      by_cases hq : c = '"' ∧ cs.take 2 = ['"', '"']
      · obtain ⟨hc', htk⟩ := hq; subst hc'
        rcases cs with _ | ⟨d, _ | ⟨e, ds⟩⟩
        · simp at htk
        · simp at htk
        · simp only [List.take_succ_cons, List.take_zero] at htk
          obtain ⟨hd, he⟩ : d = '"' ∧ e = '"' := by simpa using htk
          subst hd; subst he
          refine ⟨i + 3, by omega, ?_, ?_⟩
          · unfold stepIx
            rw [hxi]
            dsimp only
            rw [if_neg (by simp), if_pos hTB,
              if_pos ⟨rfl, by simp at hxlen; omega, by rw [hdrop1]; rfl⟩,
              step_tb_close st result ds hTB]
          · rw [step_tb_close st result ds hTB, hdrop3]; rfl
      · refine ⟨i + 1, by omega, ?_, ?_⟩
        · unfold stepIx
          rw [hxi]
          dsimp only
          rw [if_neg (by simp [hc]), if_pos hTB,
            if_neg (by rw [hdrop1]; exact fun hh => hq ⟨hh.1, hh.2.2⟩),
            step_tb_copy st result c cs hTB hc hq]
        · rw [step_tb_copy st result c cs hTB hc hq, hdrop1]
    · by_cases hStrC : st.in_string = true ∧ st.string_delimiter = some c
      · have hc : c ≠ '\\' := fun hh => hEsc ⟨Or.inl hStrC.1, hh⟩
        have hrw := step_string_close st result c cs hStrC.1 (by simpa using hTB) hc hStrC.2
        refine ⟨i + 1, by omega, ?_, ?_⟩
        · unfold stepIx
          rw [hxi]
          dsimp only
          rw [if_neg (by simp [hc]), if_neg (by simpa using hTB), if_pos hStrC, hrw]
        · rw [hrw, hdrop1]
      · by_cases hChC : st.in_char = true ∧ c = '\''
        · obtain ⟨h1, hc'⟩ := hChC; subst hc'
          have hrw := step_char_close st result cs h1 (by simpa using hTB) hStrC
          refine ⟨i + 1, by omega, ?_, ?_⟩
          · unfold stepIx
            rw [hxi]
            dsimp only
            rw [if_neg (by simp), if_neg (by simpa using hTB), if_neg hStrC,
              if_pos ⟨h1, rfl⟩, hrw]
          · rw [hrw, hdrop1]
        · by_cases hLit : st.in_string = true ∨ st.in_char = true
          · have hc : c ≠ '\\' := fun hh => hEsc ⟨hLit.imp id Or.inl, hh⟩
            have hrw := step_lit_copy st result c cs hLit (by simpa using hTB) hc hStrC hChC
            refine ⟨i + 1, by omega, ?_, ?_⟩
            · unfold stepIx
              rw [hxi]
              dsimp only
              rw [if_neg (by simp [hc]), if_neg (by simpa using hTB),
                if_neg hStrC, if_neg hChC, if_pos hLit, hrw]
            · rw [hrw, hdrop1]
          · have hs : st.in_string = false := by
              simpa using fun hh => hLit (Or.inl hh)
            have hch : st.in_char = false := by
              simpa using fun hh => hLit (Or.inr hh)
            have htb : st.in_text_block = false := by simpa using hTB
            by_cases hSLCe : st.in_single_line_comment = true ∧ c = '\n'
            · obtain ⟨h1, hc'⟩ := hSLCe; subst hc'
              have hrw := step_slc_end st result cs h1 hs hch htb
              refine ⟨i + 1, by omega, ?_, ?_⟩
              · unfold stepIx
                rw [hxi]
                dsimp only
                rw [if_neg (by simp [hs, hch, htb]), if_neg (by simp [htb]),
                  if_neg hStrC, if_neg hChC, if_neg (by simp [hs, hch]),
                  if_pos ⟨h1, rfl⟩, hrw]
              · rw [hrw, hdrop1]
            · by_cases hMLC : st.in_multi_line_comment = true
              · by_cases hstar : c = '*' ∧ cs.take 1 = ['/']
                · obtain ⟨hc', htk⟩ := hstar; subst hc'
                  rcases cs with _ | ⟨d, ds⟩
                  · simp at htk
                  · simp only [List.take_succ_cons, List.take_zero] at htk
                    have hd : d = '/' := by simpa using htk
                    subst hd
                    have hrw := step_mlc_close st result ds hMLC hs hch htb
                    refine ⟨i + 2, by omega, ?_, ?_⟩
                    · unfold stepIx
                      rw [hxi]
                      dsimp only
                      rw [if_neg (by simp [hs, hch, htb]), if_neg (by simp [htb]),
                        if_neg hStrC, if_neg hChC, if_neg (by simp [hs, hch]),
                        if_neg (by simp), if_pos hMLC,
                        if_pos ⟨rfl, by simp at hxlen; omega, by rw [hget1]; simp⟩, hrw]
                    · rw [hrw, hdrop2]; rfl
                · have hrw := step_mlc_skip st result c cs hMLC hs hch htb hSLCe hstar
                  refine ⟨i + 1, by omega, ?_, ?_⟩
                  · unfold stepIx
                    rw [hxi]
                    dsimp only
                    rw [if_neg (by simp [hs, hch, htb]), if_neg (by simp [htb]),
                      if_neg hStrC, if_neg hChC, if_neg (by simp [hs, hch]),
                      if_neg hSLCe, if_pos hMLC, if_neg ?hstarIx, hrw]
                    case hstarIx =>
                      rintro ⟨hc', hl1, hacc⟩
                      rw [hget1] at hacc
                      rcases cs with _ | ⟨d, ds⟩
                      · simp at hacc
                      · simp at hacc
                        exact hstar ⟨hc', by simp [hacc]⟩
                  · rw [hrw, hdrop1]
              · by_cases hSLC : st.in_single_line_comment = true
                · have hn : c ≠ '\n' := fun hh => hSLCe ⟨hSLC, hh⟩
                  have hmlcF : st.in_multi_line_comment = false := by simpa using hMLC
                  have hrw := step_slc_skip st result c cs hSLC hs hch htb hmlcF hn
                  refine ⟨i + 1, by omega, ?_, ?_⟩
                  · unfold stepIx
                    rw [hxi]
                    dsimp only
                    rw [if_neg (by simp [hs, hch, htb]), if_neg (by simp [htb]),
                      if_neg hStrC, if_neg hChC, if_neg (by simp [hs, hch]),
                      if_neg (by simp [hn]), if_neg (by simp [hmlcF]),
                      if_pos hSLC, hrw]
                  · rw [hrw, hdrop1]
                · have hCM : CodeMode st :=
                    ⟨hs, hch, by simpa using hSLC, by simpa using hMLC, htb⟩
                  have hslcF : st.in_single_line_comment = false := by
                    simpa using hSLC
                  have hmlcF : st.in_multi_line_comment = false := by
                    simpa using hMLC
                  by_cases hq : c = '"' ∧ cs.take 2 = ['"', '"']
                  · obtain ⟨hc', htk⟩ := hq; subst hc'
                    rcases cs with _ | ⟨d, _ | ⟨e, rest⟩⟩
                    · simp at htk
                    · simp at htk
                    · simp only [List.take_succ_cons, List.take_zero] at htk
                      obtain ⟨hd, he⟩ : d = '"' ∧ e = '"' := by simpa using htk
                      subst hd; subst he
                      cases hok : textBlockStartOk rest
                      · have hrw := step_tb_reject st result rest hCM hok
                        refine ⟨i + 1, by omega, ?_, ?_⟩
                        · unfold stepIx
                          rw [hxi]
                          dsimp only
                          rw [if_neg (by simp [hs, hch, htb]),
                            if_neg (by simp [htb]), if_neg hStrC, if_neg hChC,
                            if_neg (by simp [hs, hch]),
                            if_neg (by simp [hslcF]), if_neg (by simp [hmlcF]),
                            if_neg (by simp [hslcF]), if_neg ?hTBSr,
                            if_neg (by simp), if_pos rfl, hrw]
                          case hTBSr =>
                            rintro ⟨-, -, -, hl3, hacc⟩
                            rcases rest with _ | ⟨f, fs⟩
                            · simp at hxlen
                              omega
                            · rw [hget3] at hacc
                              simp at hacc
                              simp [textBlockStartOk] at hok
                              simp [hok.1, hok.2] at hacc
                        · rw [hrw, hdrop1]
                      · rcases rest with _ | ⟨f, fs⟩
                        · simp [textBlockStartOk] at hok
                        · have hrw := step_tb_start st result (f :: fs) hCM hok
                          refine ⟨i + 3, by omega, ?_, ?_⟩
                          · unfold stepIx
                            rw [hxi]
                            dsimp only
                            rw [if_neg (by simp [hs, hch, htb]),
                              if_neg (by simp [htb]), if_neg hStrC, if_neg hChC,
                              if_neg (by simp [hs, hch]),
                              if_neg (by simp [hslcF]), if_neg (by simp [hmlcF]),
                              if_neg (by simp [hslcF]), if_pos ?hTBSp, hrw]
                            case hTBSp =>
                              refine ⟨rfl, by simp at hxlen; omega, ?_, ?_, ?_⟩
                              · rw [hx]; rfl
                              · simp at hxlen
                                omega
                              · rw [hget3]
                                simp only [textBlockStartOk] at hok
                                simp [hok]
                          · rw [hrw, hdrop3]; rfl
                  · have hTBSn : ¬(c = '"' ∧ i + 2 < x.length ∧
                        (x.drop i).take 3 = ['"', '"', '"'] ∧ i + 3 < x.length ∧
                        (x[i + 3]?.any fun f => pyIsSpace f || f = '\n') = true) := by
                      rintro ⟨hc', -, htk3, -, -⟩
                      rw [hx] at htk3
                      simp only [List.take_succ_cons] at htk3
                      exact hq ⟨hc', by
                        have := (List.cons.injEq _ _ _ _).mp htk3
                        simpa using this.2⟩
                    by_cases hsl : c = '/'
                    · subst hsl
                      rcases cs with _ | ⟨d, ds⟩
                      · have hrw := step_slash_copy st result [] hCM (by simp)
                          (by simp)
                        refine ⟨i + 1, by omega, ?_, ?_⟩
                        · unfold stepIx
                          rw [hxi]
                          dsimp only
                          rw [if_neg (by simp [hs, hch, htb]),
                            if_neg (by simp [htb]), if_neg hStrC, if_neg hChC,
                            if_neg (by simp [hs, hch]),
                            if_neg (by simp [hslcF]), if_neg (by simp [hmlcF]),
                            if_neg (by simp [hslcF]), if_neg hTBSn, if_pos rfl,
                            if_neg (by simp at hxlen; omega : ¬ i + 1 < x.length),
                            hrw]
                        · rw [hrw, hdrop1]
                      · by_cases hd : d = '/'
                        · subst hd
                          cases hurl : is_likely_url result
                          · have hrw := step_slc_start st result ds hCM hurl
                            refine ⟨i + 2, by omega, ?_, ?_⟩
                            · unfold stepIx
                              rw [hxi]
                              dsimp only
                              rw [if_neg (by simp [hs, hch, htb]),
                                if_neg (by simp [htb]), if_neg hStrC, if_neg hChC,
                                if_neg (by simp [hs, hch]),
                                if_neg (by simp [hslcF]), if_neg (by simp [hmlcF]),
                                if_neg (by simp [hslcF]), if_neg hTBSn, if_pos rfl,
                                if_pos (by simp at hxlen; omega : i + 1 < x.length),
                                hget1]
                              simp only [List.getElem?_cons_zero]
                              simp [hurl, hrw]
                            · rw [hrw, hdrop2]; rfl
                          · have hrw := step_url_copy st result ds hCM hurl
                            refine ⟨i + 1, by omega, ?_, ?_⟩
                            · unfold stepIx
                              rw [hxi]
                              dsimp only
                              rw [if_neg (by simp [hs, hch, htb]),
                                if_neg (by simp [htb]), if_neg hStrC, if_neg hChC,
                                if_neg (by simp [hs, hch]),
                                if_neg (by simp [hslcF]), if_neg (by simp [hmlcF]),
                                if_neg (by simp [hslcF]), if_neg hTBSn, if_pos rfl,
                                if_pos (by simp at hxlen; omega : i + 1 < x.length),
                                hget1]
                              simp only [List.getElem?_cons_zero]
                              simp [hurl, hrw]
                            · rw [hrw, hdrop1]
                        · by_cases hd2 : d = '*'
                          · subst hd2
                            have hrw := step_mlc_start st result ds hCM
                            refine ⟨i + 2, by omega, ?_, ?_⟩
                            · unfold stepIx
                              rw [hxi]
                              dsimp only
                              rw [if_neg (by simp [hs, hch, htb]),
                                if_neg (by simp [htb]), if_neg hStrC, if_neg hChC,
                                if_neg (by simp [hs, hch]),
                                if_neg (by simp [hslcF]), if_neg (by simp [hmlcF]),
                                if_neg (by simp [hslcF]), if_neg hTBSn, if_pos rfl,
                                if_pos (by simp at hxlen; omega : i + 1 < x.length),
                                hget1]
                              simp only [List.getElem?_cons_zero]
                              simp [hrw]
                            · rw [hrw, hdrop2]; rfl
                          · have hrw := step_slash_copy st result (d :: ds) hCM
                              (by simp [hd]) (by simp [hd2])
                            refine ⟨i + 1, by omega, ?_, ?_⟩
                            · unfold stepIx
                              rw [hxi]
                              dsimp only
                              rw [if_neg (by simp [hs, hch, htb]),
                                if_neg (by simp [htb]), if_neg hStrC, if_neg hChC,
                                if_neg (by simp [hs, hch]),
                                if_neg (by simp [hslcF]), if_neg (by simp [hmlcF]),
                                if_neg (by simp [hslcF]), if_neg hTBSn, if_pos rfl,
                                if_pos (by simp at hxlen; omega : i + 1 < x.length),
                                hget1]
                              simp only [List.getElem?_cons_zero]
                              simp [hd, hd2, hrw]
                            · rw [hrw, hdrop1]
                    · by_cases hq2 : c = '"'
                      · subst hq2
                        have hsh : ¬(cs.take 2 = ['"', '"']) :=
                          fun hh => hq ⟨rfl, hh⟩
                        have hrw := step_string_open st result cs hCM hsh
                        refine ⟨i + 1, by omega, ?_, ?_⟩
                        · unfold stepIx
                          rw [hxi]
                          dsimp only
                          rw [if_neg (by simp [hs, hch, htb]),
                            if_neg (by simp [htb]), if_neg hStrC, if_neg hChC,
                            if_neg (by simp [hs, hch]),
                            if_neg (by simp [hslcF]), if_neg (by simp [hmlcF]),
                            if_neg (by simp [hslcF]), if_neg hTBSn,
                            if_neg (by simp), if_pos rfl, hrw]
                        · rw [hrw, hdrop1]
                      · by_cases hq3 : c = '\''
                        · subst hq3
                          have hrw := step_char_open st result cs hCM
                          refine ⟨i + 1, by omega, ?_, ?_⟩
                          · unfold stepIx
                            rw [hxi]
                            dsimp only
                            rw [if_neg (by simp [hs, hch, htb]),
                              if_neg (by simp [htb]), if_neg hStrC, if_neg hChC,
                              if_neg (by simp [hs, hch]),
                              if_neg (by simp [hslcF]), if_neg (by simp [hmlcF]),
                              if_neg (by simp [hslcF]), if_neg hTBSn,
                              if_neg (by simp), if_neg (by simp), if_pos rfl, hrw]
                          · rw [hrw, hdrop1]
                        · have hrw := step_regular st result c cs hCM hsl hq2 hq3
                          refine ⟨i + 1, by omega, ?_, ?_⟩
                          · unfold stepIx
                            rw [hxi]
                            dsimp only
                            rw [if_neg (by simp [hs, hch, htb]),
                              if_neg (by simp [htb]), if_neg hStrC, if_neg hChC,
                              if_neg (by simp [hs, hch]),
                              if_neg (by simp [hslcF]), if_neg (by simp [hmlcF]),
                              if_neg (by simp [hslcF]), if_neg hTBSn,
                              if_neg hsl, if_neg hq2, if_neg hq3, hrw]
                          · rw [hrw, hdrop1]
  

/-- The index-based loop model agrees with `scan` from any position, given
fuel at least the number of remaining characters: it never returns `none`. -/
theorem scanIx_eq_scan (x : List Char) : ∀ (fuel i : Nat) (st : ScanState)
    (result : List Piece), x.length - i ≤ fuel →
    scanIx x fuel i st result = some (scan st result (x.drop i)) := by
  intro fuel
  induction fuel with
  | zero =>
    intro i st result h
    have hge : x.length ≤ i := by omega
    unfold scanIx
    rw [if_neg (by omega), List.drop_eq_nil_of_le hge]
    rfl
  | succ fuel ih =>
    intro i st result h
    by_cases hi : i < x.length
    · have hx : x.drop i = x[i] :: x.drop (i + 1) :=
        List.drop_eq_getElem_cons hi
      obtain ⟨i2, hii, heq, hdrop⟩ :=
        stepIx_eq x i st result x[i] (x.drop (i + 1)) hx
      unfold scanIx
      rw [if_pos hi, heq]
      dsimp only
      rw [ih i2 _ _ (by omega), hdrop, hx, scan_cons]
    · unfold scanIx
      rw [if_neg hi, List.drop_eq_nil_of_le (by omega)]
      rfl

/-- Claim C1: for every input `x`, `transform` preserves every line-terminator
character (the newline, the only line terminator the scanner treats as such)
of `x`, including those inside line and block comments, so the newline count
of `transform x` equals that of `x`. -/
theorem transform_preserves_newline_count (x : List Char) :
    (transform x).count '\n' = x.count '\n' := by
  have h := scan_count_newline x.length x (le_refl _) initState []
  simpa [transform, remove_comments] using h

/-- Claim C2: a `/` or `*` read while inside a double-quoted string literal or
a character literal is copied verbatim with the scanner state unchanged (so
`//`, `/*`, `*/` inside literals are never treated as comment delimiters), and
the two spec examples are fixed points of `transform`. -/
theorem literal_comment_sequences_preserved :
    (∀ (st : ScanState) (result : List Piece) (c : Char) (cs : List Char),
      st.in_string = true → st.in_text_block = false →
      st.string_delimiter = some '"' → (c = '/' ∨ c = '*') →
      scan st result (c :: cs) = scan st (result ++ [[c]]) cs) ∧
    (∀ (st : ScanState) (result : List Piece) (c : Char) (cs : List Char),
      st.in_char = true → st.in_string = false → st.in_text_block = false →
      (c = '/' ∨ c = '*') →
      scan st result (c :: cs) = scan st (result ++ [[c]]) cs) ∧
    transform (String.data "String url = \"Visit http://example.com\";") =
      String.data "String url = \"Visit http://example.com\";" ∧
    transform (String.data "char c = '/'; char d = '*';") =
      String.data "char c = '/'; char d = '*';" := by
  refine ⟨?_, ?_, by decide, by decide⟩
  · intro st result c cs h1 h2 h3 hc
    have hc' : c ≠ '\\' := by rcases hc with rfl | rfl <;> simp
    have h4 : ¬(st.in_string = true ∧ st.string_delimiter = some c) := by
      rintro ⟨-, hh⟩
      rw [h3] at hh
      rcases hc with rfl | rfl <;> simp at hh
    have h5 : ¬(st.in_char = true ∧ c = '\'') := by
      rintro ⟨-, hh⟩
      rcases hc with rfl | rfl <;> simp at hh
    rw [scan_cons, step_lit_copy st result c cs (Or.inl h1) h2 hc' h4 h5]
  · intro st result c cs h1 h2 h3 hc
    have hc' : c ≠ '\\' := by rcases hc with rfl | rfl <;> simp
    have h4 : ¬(st.in_string = true ∧ st.string_delimiter = some c) := by
      rintro ⟨hh, -⟩
      rw [h2] at hh
      exact absurd hh (by simp)
    have h5 : ¬(st.in_char = true ∧ c = '\'') := by
      rintro ⟨-, hh⟩
      rcases hc with rfl | rfl <;> simp at hh
    rw [scan_cons, step_lit_copy st result c cs (Or.inr h1) h3 hc' h4 h5]

/-- Witness for C2: a `/` in string mode is copied with the state kept. -/
theorem literal_comment_sequences_preserved_witness :
    scan ⟨true, false, false, false, some '"', false, 0⟩ [] ['/'] =
      scan ⟨true, false, false, false, some '"', false, 0⟩ [['/']] [] :=
  literal_comment_sequences_preserved.1
    ⟨true, false, false, false, some '"', false, 0⟩ [] '/' []
    rfl rfl rfl (Or.inl rfl)

/-- Claim C3: `remove_comments` is a total function over every input sequence,
the empty one included.  In the index-based model `scanIx`/`stepIx` — where
every subscript is a bounds-checked access whose failure propagates as `none`
and fuel bounds the iterations — the loop run with fuel `x.length` from any
state never fails: every lookahead stays in bounds, and the run returns
exactly `scan`'s output, so malformed or unterminated literals, comments, and
text blocks simply run to end-of-input in whatever mode was last active. -/
theorem remove_comments_total_inbounds (x : List Char) (st : ScanState) :
    scanIx x x.length 0 st [] = some (scan st [] x) := by
  have h := scanIx_eq_scan x x.length 0 st [] (by omega)
  simpa using h

/-- Claim C4 counterexample: `remove_comments` itself does not reset state at
entry.  After scanning the unterminated string `"` the instance is left in
string mode, and a second `remove_comments` call on `//c` then copies the
characters instead of stripping the comment, unlike a fresh instance. -/
theorem remove_comments_state_leak_cex :
    (remove_comments (remove_comments initState ['"']).2 ['/', '/', 'c']).1 =
      ['/', '/', 'c'] ∧
    (remove_comments initState ['/', '/', 'c']).1 = [] ∧
    (['/', '/', 'c'] : List Char) ≠ [] := by
  refine ⟨by decide, by decide, by decide⟩

/-- Claim C4 amended: the reset to the initial state happens at the start of
`process_file` (lines 188-195), not inside `remove_comments`; for every pair
of contents `x`, `y`, processing `x` and then `y` through `process_file`'s
reset-then-scan yields for `y` exactly the fresh-instance output. -/
theorem process_file_reset_fresh (st : ScanState) (x y : List Char) :
    (process_file_scan (process_file_scan st x).2 y).1 =
      (remove_comments initState y).1 := rfl

/-- Claim C5: inside a string literal, character literal, or text block, a
backslash with a following character copies both verbatim, advances past both
and leaves the state unchanged — no delimiter or boundary classification is
applied to the escaped character; and the spec's escaped-quote example is a
fixed point of `transform`. -/
theorem escape_pair_verbatim :
    (∀ (st : ScanState) (result : List Piece) (d : Char) (ds : List Char),
      (st.in_string = true ∨ st.in_char = true ∨ st.in_text_block = true) →
      scan st result ('\\' :: d :: ds) = scan st (result ++ [['\\'], [d]]) ds) ∧
    transform (String.data "String s = \"a \\\" b // c\";") =
      String.data "String s = \"a \\\" b // c\";" := by
  refine ⟨?_, by decide⟩
  intro st result d ds hf
  rw [scan_cons, step_escape_two st result d ds hf]

/-- Witness for C5: an escaped quote in string mode is copied verbatim. -/
theorem escape_pair_verbatim_witness :
    scan ⟨true, false, false, false, some '"', false, 0⟩ [] ['\\', '"'] =
      scan ⟨true, false, false, false, some '"', false, 0⟩ [['\\'], ['"']] [] :=
  escape_pair_verbatim.1 ⟨true, false, false, false, some '"', false, 0⟩ []
    '"' [] (Or.inl rfl)

/-- Claim C6 counterexample: scanning `http:"""` + newline + `"""` leaves the
scanner in code mode having emitted nine result elements spanning the twelve
characters `http:"""` + newline + `"""`.  The last 10 characters of that
output, lowercased, contain no URL indicator, so the claim as stated mandates
that the following `//` open a line comment and the trailing `//X` be
discarded; but the code searches the last 10 *elements* (which here span all
twelve characters, including the full `http:`), judges it a URL, and copies
the `//X` through, leaving the input unchanged. -/
theorem url_window_counterexample :
    (scan initState [] (String.data "http:\"\"\"\n\"\"\"")).1 =
      [['h'], ['t'], ['t'], ['p'], [':'], ['"', '"', '"'], ['\n'],
        ['"'], ['"', '"']] ∧
    (scan initState [] (String.data "http:\"\"\"\n\"\"\"")).2 = initState ∧
    claimed_is_likely_url (String.data "http:\"\"\"\n\"\"\"") = false ∧
    is_likely_url
      [['h'], ['t'], ['t'], ['p'], [':'], ['"', '"', '"'], ['\n'],
        ['"'], ['"', '"']] = true ∧
    transform (String.data "http:\"\"\"\n\"\"\"//X") =
      String.data "http:\"\"\"\n\"\"\"//X" ∧
    transform (String.data "http:\"\"\"\n\"\"\"//X") ≠
      String.data "http:\"\"\"\n\"\"\"" := by
  refine ⟨by decide, by decide, by decide, by decide, by decide, by decide⟩

/-- Claim C6 amended: in code mode a `/` followed by `/` enters LineComment
(both discarded, advance 2) if and only if `is_likely_url` of the emitted
result is false, where the inspected window is the concatenation of the last
10 *elements* appended to the result (each element one character, except the
text-block delimiters `\"\"\"` and `\"\"` appended as units, so 10 elements
may span more than 10 characters), lowercased; when an indicator is present
the `/` is copied as an ordinary character and the mode stays Code. -/
theorem url_heuristic_last_ten_pieces (st : ScanState) (result : List Piece)
    (ds : List Char) (h : CodeMode st) :
    (is_likely_url result = false →
      scan st result ('/' :: '/' :: ds) =
        scan { st with in_single_line_comment := true } result ds) ∧
    (is_likely_url result = true →
      scan st result ('/' :: '/' :: ds) =
        scan st (result ++ [['/']]) ('/' :: ds)) := by
  constructor
  · intro hurl
    rw [scan_cons, step_slc_start st result ds h hurl]
  · intro hurl
    rw [scan_cons, step_url_copy st result ds h hurl]

/-- Witness for the amended C6: with an empty result window, `//` opens a
line comment. -/
theorem url_heuristic_last_ten_pieces_witness :
    scan initState [] ['/', '/'] =
      scan { initState with in_single_line_comment := true } [] [] :=
  (url_heuristic_last_ten_pieces initState [] []
    ⟨rfl, rfl, rfl, rfl, rfl⟩).1 (by decide)

/-- Claim C7 counterexample: a triple double-quote at the very end of the
input does not start a text block — the claim's "or the end of the input"
disjunct is wrong.  The code requires a 4th character (line 119:
`i + 3 < length`), so on input `"""` the scanner instead falls through to the
string-literal rules and ends in string mode. -/
theorem text_block_eof_counterexample :
    (scan initState [] ['"', '"', '"']).2.in_text_block = false ∧
    (scan initState [] ['"', '"', '"']).2.in_string = true ∧
    (scan initState [] ['"', '"', '"']).1 = [['"'], ['"'], ['"']] := by
  refine ⟨by decide, by decide, by decide⟩

/-- Claim C7 amended: in code mode a `\"\"\"` sequence starts a TextBlock
(the three quotes copied, advance 3) if and only if a 4th character exists and
it is whitespace or a newline; otherwise — including at end of input — it is
treated as ordinary code and falls through to the quote-handling rules (the
first `\"` opens a string literal), with no backtracking. -/
theorem text_block_start_iff_whitespace (st : ScanState) (result : List Piece)
    (rest : List Char) (h : CodeMode st) :
    (textBlockStartOk rest = true →
      scan st result ('"' :: '"' :: '"' :: rest) =
        scan { st with in_text_block := true }
          (result ++ [['"', '"', '"']]) rest) ∧
    (textBlockStartOk rest = false →
      scan st result ('"' :: '"' :: '"' :: rest) =
        scan { st with in_string := true, string_delimiter := some '"' }
          (result ++ [['"']]) ('"' :: '"' :: rest)) ∧
    textBlockStartOk [] = false ∧
    (∀ (f : Char) (fs : List Char),
      textBlockStartOk (f :: fs) = (pyIsSpace f || f = '\n')) := by
  refine ⟨?_, ?_, rfl, fun f fs => rfl⟩
  · intro hok
    rw [scan_cons, step_tb_start st result rest h hok]
  · intro hok
    rw [scan_cons, step_tb_reject st result rest h hok]

/-- Witness for the amended C7: `\"\"\"` followed by a newline starts a text
block. -/
theorem text_block_start_iff_whitespace_witness :
    scan initState [] ['"', '"', '"', '\n'] =
      scan { initState with in_text_block := true } [['"', '"', '"']] ['\n'] :=
  (text_block_start_iff_whitespace initState [] ['\n']
    ⟨rfl, rfl, rfl, rfl, rfl⟩).1 (by decide)

/-- Claim C8: the spec's block-comment example — body and delimiters are
discarded, exactly the two embedded newlines are kept. -/
theorem block_comment_newlines_example :
    transform (String.data "a();\n/* line1\nline2 */\nb();\n") =
      String.data "a();\n\n\nb();\n" := by decide

/-- Claim C9: `transform` is idempotent on comment-free input.  An input
contains no comments exactly when the scanner drops nothing, i.e. the output
has the input's length (every comment entered consumes at least its
two-character delimiter); such an input is a fixed point, so a second
transform changes nothing. -/
theorem transform_idempotent_on_clean (x : List Char)
    (h : (transform x).length = x.length) :
    transform (transform x) = transform x := by
  have hsub : (transform x).Sublist x := by
    have hs := scan_sublist x.length x (le_refl _) initState []
    simpa [transform, remove_comments] using hs
  have hfix : transform x = x := hsub.eq_of_length h
  rw [hfix]
  exact hfix

/-- Witness for C9: a comment-free statement is transformed to itself twice. -/
theorem transform_idempotent_on_clean_witness :
    (transform (String.data "int x = 1;")).length =
      (String.data "int x = 1;").length ∧
    transform (transform (String.data "int x = 1;")) =
      transform (String.data "int x = 1;") :=
  ⟨by decide, transform_idempotent_on_clean _ (by decide)⟩

/-- Claim C10: a final backslash read in string, char, or text-block mode
(nothing left to escape) is copied alone and the scan ends normally; the
unterminated example ends with its backslash kept. -/
theorem trailing_backslash_total :
    (∀ (st : ScanState) (result : List Piece),
      (st.in_string = true ∨ st.in_char = true ∨ st.in_text_block = true) →
      scan st result ['\\'] = (result ++ [['\\']], st)) ∧
    transform (String.data "\"a\\") = String.data "\"a\\" := by
  refine ⟨?_, by decide⟩
  intro st result hf
  rw [scan_cons, step_escape_end st result hf]
  rfl

/-- Witness for C10: a lone backslash at end of input in string mode. -/
theorem trailing_backslash_total_witness :
    scan ⟨true, false, false, false, some '"', false, 0⟩ [] ['\\'] =
      ([] ++ [['\\']], ⟨true, false, false, false, some '"', false, 0⟩) :=
  trailing_backslash_total.1 ⟨true, false, false, false, some '"', false, 0⟩
    [] (Or.inl rfl)

end JavaCommentRemover
